import Mathlib

/-!
Verification of the EPG server (epg-server, `main.go`) against its
specification. The Go source is shallowly embedded: Go strings are modelled
as Lean strings (byte sequences of the feed are ASCII on every path the
claims exercise, so runes and bytes coincide), Go maps are modelled as
association lists with unique keys and last-write-wins assignment, Go
`time.Time` values are modelled as normalized proleptic-Gregorian civil
datetimes in the process local timezone, and the I/O stages of the ingestion
pipeline are modelled by passing their outcomes as explicit arguments.
-/

set_option autoImplicit false

namespace EPG

/-! ## Association lists: the model of Go maps

Go map assignment `m[k] = v` overwrites an existing key or adds a new one;
map reads return the value and a presence flag. The alist keeps one entry
per key (updates happen in place, fresh keys append at the end). -/

/-- Lookup in the alist model of a Go map: `m[k]` with presence flag. -/
def alLookup {β : Type} (m : List (String × β)) (k : String) : Option β :=
  (m.find? (fun p => p.1 == k)).map Prod.snd

/-- Assignment in the alist model of a Go map: `m[k] = v`. -/
def alInsert {β : Type} : List (String × β) → String → β → List (String × β)
  | [], k, v => [(k, v)]
  | p :: rest, k, v => if p.1 == k then (k, v) :: rest else p :: alInsert rest k v

/-! ## Data model (XML structures of `main.go`) -/

/-- Struct `DisplayName` from `main.go`: a display name with a language attribute. -/
structure DisplayName where
  Lang : String
  Value : String
deriving DecidableEq, Repr

/-- Struct `Channel` from `main.go`: id attribute plus display names. -/
structure Channel where
  ID : String
  DisplayName : List EPG.DisplayName
deriving DecidableEq, Repr

/-- Struct `Programme` from `main.go`: start/stop/channel attributes and a title. -/
structure Programme where
  Start : String
  Stop : String
  Channel : String
  Title : String
deriving DecidableEq, Repr

/-- Struct `TV` from `main.go`: the root of the parsed guide document. -/
structure TV where
  Channels : List EPG.Channel
  Programmes : List EPG.Programme
  GeneratorInfoName : String
  GeneratorInfoURL : String
  SourceInfoName : String
  SourceInfoURL : String
deriving DecidableEq, Repr

/-- Struct `ProgramItem` from `main.go`: the cache storage unit. -/
structure ProgramItem where
  Start : String
  End : String
  Title : String
deriving DecidableEq, Repr

/-- The data portion of `EPGCache` from `main.go` (the mutex is a
concurrency artifact, not data): channel name → id, and
channel id → date → programme list. -/
structure CacheIndex where
  ChannelMap : List (String × String)
  ProgramData : List (String × List (String × List EPG.ProgramItem))
deriving DecidableEq, Repr

/-- Struct `EPGResponse` from `main.go`: the success payload of a query. -/
structure EPGResponse where
  ChannelName : String
  Date : String
  EPGData : List EPG.ProgramItem
deriving DecidableEq, Repr

/-- The zero value of the cache, as initialized at program start. -/
def emptyCacheIndex : CacheIndex := ⟨[], []⟩

/-! ## Timestamp Parser (`parseEPGTime`)

`parseEPGTime` splits on a single space (`strings.Split(timeStr, " ")`),
requires the first part to be 14 bytes, slices six fixed-width fields,
converts each with `strconv.Atoi` *discarding the error* (so a failed
conversion contributes Go Atoi error value 0), and builds a `time.Time`
with `time.Date(..., time.Local)`, which normalizes out-of-range
components. -/

/-- Function `strings.Split(s, " ")` from the Go standard library, for the
single-space separator: never returns an empty list. -/
def splitSpace : List Char → List (List Char)
  | [] => [[]]
  | c :: rest =>
    if c = ' ' then [] :: splitSpace rest
    else
      match splitSpace rest with
      | [] => [[c]]
      | h :: t => (c :: h) :: t

/-- Value of a nonempty all-digit run, `none` when empty or a non-digit
appears: the digit loop of `strconv.Atoi`. -/
def goDigits : List Char → Option Nat
  | [] => none
  | [c] => if c.isDigit then some (c.toNat - '0'.toNat) else none
  | c :: rest =>
    if c.isDigit then
      (goDigits rest).map (fun n => (c.toNat - '0'.toNat) * 10 ^ rest.length + n)
    else none

/-- Function `strconv.Atoi`: optional sign then digits; `none` models the error
return. -/
def goAtoiE (l : List Char) : Option Int :=
  match l with
  | '+' :: rest => (goDigits rest).map (fun n => (n : Int))
  | '-' :: rest => (goDigits rest).map (fun n => -(n : Int))
  | _ => (goDigits l).map (fun n => (n : Int))

/-- Function `strconv.Atoi` with the error discarded, as `parseEPGTime` uses it:
on a conversion error the value 0 that Atoi returns alongside the error is
what the caller keeps. -/
def goAtoi (l : List Char) : Int :=
  (goAtoiE l).getD 0

/-- A normalized civil datetime: the observable wall-clock components of a
Go `time.Time` in the local timezone. -/
structure GoTime where
  year : Int
  month : Nat
  day : Nat
  hour : Nat
  minute : Nat
  second : Nat
deriving DecidableEq, Repr

/-- Days since 1970-01-01 of a civil date (proleptic Gregorian); the day
may lie outside its month and acts as an offset, exactly as in Go
`time.Date` normalization. -/
def daysFromCivil (y m d : Int) : Int :=
  let y' := if m ≤ 2 then y - 1 else y
  let era := y'.ediv 400
  let yoe := y' - era * 400
  let doy := (153 * (if m > 2 then m - 3 else m + 9) + 2).ediv 5 + d - 1
  let doe := yoe * 365 + yoe.ediv 4 - yoe.ediv 100 + doy
  era * 146097 + doe - 719468

/-- Civil date of a count of days since 1970-01-01 (proleptic Gregorian). -/
def civilFromDays (z0 : Int) : Int × Nat × Nat :=
  let z := z0 + 719468
  let era := z.ediv 146097
  let doe := z - era * 146097
  let yoe := (doe - doe.ediv 1460 + doe.ediv 36524 - doe.ediv 146096).ediv 365
  let y := yoe + era * 400
  let doy := doe - (365 * yoe + yoe.ediv 4 - yoe.ediv 100)
  let mp := (5 * doy + 2).ediv 153
  let d := doy - (153 * mp + 2).ediv 5 + 1
  let m := if mp < 10 then mp + 3 else mp - 9
  (if m ≤ 2 then y + 1 else y, m.toNat, d.toNat)

/-- Go `time.Date(y, mo, d, hh, mi, ss, 0, time.Local)` restricted to its
observable wall-clock components: normalizes month into the year, seconds
into minutes, minutes into hours, hours into days, then resolves the day
offset through the civil calendar. -/
def goTimeDate (y mo d hh mi ss : Int) : GoTime :=
  let y1 := y + (mo - 1).ediv 12
  let m1 := (mo - 1).emod 12 + 1
  let mi1 := mi + ss.ediv 60
  let ss1 := ss.emod 60
  let hh1 := hh + mi1.ediv 60
  let mi2 := mi1.emod 60
  let d1 := d + hh1.ediv 24
  let hh2 := hh1.emod 24
  let days := daysFromCivil y1 m1 d1
  let c := civilFromDays days
  ⟨c.1, c.2.1, c.2.2, hh2.toNat, mi2.toNat, ss1.toNat⟩

/-- Function `parseEPGTime` from `main.go` on the character-sequence view of its
input: split on space, check the numeric portion is exactly 14 characters,
convert the six fixed-width fields with Atoi errors discarded, and build
the local-time instant. Everything after the first space (the timezone
offset token of the feed) is never read. -/
def parseEPGTimeCore (l : List Char) : Except String GoTime :=
  let parts := splitSpace l
  match parts with
  | [] => .error "invalid time format"
  | base :: _ =>
    if base.length ≠ 14 then .error "time format length incorrect"
    else
      .ok (goTimeDate (goAtoi (base.take 4)) (goAtoi ((base.drop 4).take 2))
        (goAtoi ((base.drop 6).take 2)) (goAtoi ((base.drop 8).take 2))
        (goAtoi ((base.drop 10).take 2)) (goAtoi ((base.drop 12).take 2)))

/-- Function `parseEPGTime` from `main.go`. -/
def parseEPGTime (timeStr : String) : Except String GoTime :=
  parseEPGTimeCore timeStr.data

/-- Whether an `Except` result is the error case. -/
def isErr {ε α : Type} : Except ε α → Bool
  | .error _ => true
  | .ok _ => false

/-! ## Time formatting (`time.Time.Format` with the layouts of `main.go`)

`buildEPGCache` uses `startTime.Format("2006-01-02")` for the bucket date
and `Format("15:04")` for the item times. Go `appendInt` zero-pads a number
to the layout width (printing more digits when the value needs them) and
prints a leading minus for negative years. -/

/-- Go `appendInt` padding for a nonnegative value: zero-pad to width `w`. -/
def goPadNat (w n : Nat) : List Char :=
  let ds := Nat.toDigits 10 n
  List.replicate (w - ds.length) '0' ++ ds

/-- Go `appendInt` for a possibly negative value (the year field). -/
def goPadInt (w : Nat) (i : Int) : List Char :=
  if i < 0 then '-' :: goPadNat w (-i).toNat else goPadNat w i.toNat

/-- Layout `t.Format("2006-01-02")`: the calendar date of the instant. -/
def goDateFmt (t : GoTime) : String :=
  ⟨goPadInt 4 t.year ++ '-' :: goPadNat 2 t.month ++ '-' :: goPadNat 2 t.day⟩

/-- Zero-padded `HH:MM` of an hour and a minute. -/
def hhmmFmt (h m : Nat) : String :=
  ⟨goPadNat 2 h ++ ':' :: goPadNat 2 m⟩

/-- Layout `t.Format("15:04")`: the zero-padded wall-clock hour and minute. -/
def goTimeHHMM (t : GoTime) : String :=
  hhmmFmt t.hour t.minute

/-- Recognizes a zero-padded `HH:MM` string: five characters, a colon in
the middle, digits elsewhere. -/
def zeroPaddedHHMM (s : String) : Bool :=
  match s.data with
  | [a, b, c, d, e] => a.isDigit && b.isDigit && c == ':' && d.isDigit && e.isDigit
  | _ => false

/-! ## Index Builder (`buildEPGCache`)

`buildEPGCache` locks the cache, clears both maps, fills the name index
from the channels (first display name with `Lang == "zh"` and nonempty
value; `break` after recording), then folds over the programmes: a
programme whose start or stop fails to parse is skipped with a warning;
otherwise a `ProgramItem` is appended at `[channel][date-of-start]`,
creating the intermediate map and slice on first use. The function always
returns `nil` error. -/

/-- The inner display-name loop of `buildEPGCache`: the first display name
whose language is `"zh"` with a nonempty value. -/
def firstZhName (ch : Channel) : Option String :=
  (ch.DisplayName.find? (fun dn => dn.Lang == "zh" && dn.Value != "")).map
    (fun dn => dn.Value)

/-- The channel loop of `buildEPGCache`: the name index. -/
def buildChannelMap (chs : List Channel) : List (String × String) :=
  chs.foldl
    (fun m ch =>
      match firstZhName ch with
      | some n => alInsert m n ch.ID
      | none => m)
    []

/-- One iteration of the programme loop of `buildEPGCache`. -/
def progStep (pd : List (String × List (String × List ProgramItem)))
    (prog : Programme) : List (String × List (String × List ProgramItem)) :=
  match parseEPGTime prog.Start, parseEPGTime prog.Stop with
  | .ok startTime, .ok stopTime =>
    let dateStr := goDateFmt startTime
    let item : ProgramItem := ⟨goTimeHHMM startTime, goTimeHHMM stopTime, prog.Title⟩
    let inner := (alLookup pd prog.Channel).getD []
    let bucket := (alLookup inner dateStr).getD []
    alInsert pd prog.Channel (alInsert inner dateStr (bucket ++ [item]))
  | _, _ => pd

/-- The programme loop of `buildEPGCache`: the programme index. -/
def buildProgramData (progs : List Programme) :
    List (String × List (String × List ProgramItem)) :=
  progs.foldl progStep []

/-- The index value `buildEPGCache` installs into the cache. -/
def buildCacheIndex (tv : TV) : CacheIndex :=
  ⟨buildChannelMap tv.Channels, buildProgramData tv.Programmes⟩

/-- Function `buildEPGCache` from `main.go`: installs the freshly built index and
returns `nil` unconditionally (no code path produces an error). -/
def buildEPGCache (tv : TV) : Except String CacheIndex :=
  .ok (buildCacheIndex tv)

/-- The two-level lookup `ProgramData[channel][date]` used by queries. -/
def lookup2 (pd : List (String × List (String × List ProgramItem)))
    (c d : String) : Option (List ProgramItem) :=
  (alLookup pd c).bind (fun inner => alLookup inner d)

/-! ## Ingestion pipeline (`downloadAndParseEPG`)

The stages with external effects (HTTP download, gzip decompression, XML
decoding, file write) are modelled by their outcomes passed as arguments;
the control flow is that of `downloadAndParseEPG`: each failing stage
returns a wrapped error immediately. `buildEPGCache` replaces the global
cache under the write lock *before* `saveCache` runs, so the pair result
tracks the installed index alongside the returned error value. -/

/-- Function `downloadAndParseEPG` from `main.go`, with stage outcomes explicit:
returns the run result together with the cache contents after the run. -/
def downloadAndParseEPG (fetchRes decompRes : Except String Unit)
    (parseRes : Except String TV) (saveRes : Except String Unit)
    (cache : CacheIndex) : Except String Unit × CacheIndex :=
  match fetchRes with
  | .error e => (.error e, cache)
  | .ok _ =>
    match decompRes with
    | .error e => (.error e, cache)
    | .ok _ =>
      match parseRes with
      | .error e => (.error e, cache)
      | .ok tvData =>
        match buildEPGCache tvData with
        | .error e => (.error e, cache)
        | .ok newIndex =>
          match saveRes with
          | .error e => (.error e, newIndex)
          | .ok _ => (.ok (), newIndex)

/-! ## Persistence Adapter (`saveCache` / `loadCache`)

`saveCache` writes `json.Marshal(epgCache)` to the cache file; `loadCache`
reads it back with `json.Unmarshal` into the startup cache (whose maps are
empty). The byte-level JSON text is modelled by a JSON tree: Go string
escaping round-trips exactly on the valid-UTF-8 strings every reachable
index contains, and the key order of a marshalled map is not observable
map state. Unmarshalling a JSON object into a map inserts each field in
turn; unknown object fields for a struct are ignored and fields are looked
up by name. -/

/-- The JSON documents `saveCache` can produce. -/
inductive Json where
  | str (s : String)
  | arr (elems : List Json)
  | obj (fields : List (String × Json))

/-- Marshal one `ProgramItem` (JSON tags `start`, `end`, `title`). -/
def encodeItem (it : ProgramItem) : Json :=
  .obj [("start", .str it.Start), ("end", .str it.End), ("title", .str it.Title)]

/-- Marshal a programme list. -/
def encodeItems (l : List ProgramItem) : Json :=
  .arr (l.map encodeItem)

/-- Marshal the date → items map of one channel. -/
def encodeDateMap (m : List (String × List ProgramItem)) : Json :=
  .obj (m.map (fun p => (p.1, encodeItems p.2)))

/-- Marshal the programme index. -/
def encodePD (pd : List (String × List (String × List ProgramItem))) : Json :=
  .obj (pd.map (fun p => (p.1, encodeDateMap p.2)))

/-- Function `saveCache` from `main.go`: `json.Marshal(epgCache)` of the index the
cache holds (exported fields `ChannelMap` and `ProgramData`; the mutex is
unexported and not serialized). -/
def saveCache (x : CacheIndex) : Json :=
  .obj [("ChannelMap", .obj (x.ChannelMap.map (fun p => (p.1, Json.str p.2)))),
        ("ProgramData", encodePD x.ProgramData)]

/-- Unmarshal a JSON string. -/
def decodeStr : Json → Option String
  | .str s => some s
  | _ => none

/-- Unmarshal one `ProgramItem`: fields looked up by JSON tag. -/
def decodeItem (j : Json) : Option ProgramItem :=
  match j with
  | .obj fs =>
    match alLookup fs "start", alLookup fs "end", alLookup fs "title" with
    | some (.str a), some (.str b), some (.str c) => some ⟨a, b, c⟩
    | _, _, _ => none
  | _ => none

/-- Unmarshal a programme list, element by element. -/
def decodeItemList : List Json → Option (List ProgramItem)
  | [] => some []
  | j :: rest =>
    (decodeItem j).bind (fun it => (decodeItemList rest).map (fun l => it :: l))

/-- Unmarshal a programme list. -/
def decodeItems (j : Json) : Option (List ProgramItem) :=
  match j with
  | .arr es => decodeItemList es
  | _ => none

/-- Unmarshal a JSON object into a string map, inserting each field. -/
def decodeStrMap (j : Json) : Option (List (String × String)) :=
  match j with
  | .obj fs => fs.foldlM (fun m p => (decodeStr p.2).map (fun s => alInsert m p.1 s)) []
  | _ => none

/-- Unmarshal the date → items map of one channel. -/
def decodeDateMap (j : Json) : Option (List (String × List ProgramItem)) :=
  match j with
  | .obj fs => fs.foldlM (fun m p => (decodeItems p.2).map (fun l => alInsert m p.1 l)) []
  | _ => none

/-- Unmarshal the programme index. -/
def decodePD (j : Json) :
    Option (List (String × List (String × List ProgramItem))) :=
  match j with
  | .obj fs => fs.foldlM (fun m p => (decodeDateMap p.2).map (fun l => alInsert m p.1 l)) []
  | _ => none

/-- Function `loadCache` from `main.go`: `json.Unmarshal` of a snapshot into the
startup cache, whose two maps start empty. -/
def loadCache (j : Json) : Option CacheIndex :=
  match j with
  | .obj fs =>
    match alLookup fs "ChannelMap", alLookup fs "ProgramData" with
    | some cmJ, some pdJ =>
      (decodeStrMap cmJ).bind (fun cm => (decodePD pdJ).map (fun pd => ⟨cm, pd⟩))
    | _, _ => none
  | _ => none

/-- A reachable index has unique keys at every map level: Go maps cannot
hold a key twice, and `alInsert` preserves key uniqueness. -/
def wfCacheIndex (x : CacheIndex) : Prop :=
  (x.ChannelMap.map Prod.fst).Nodup ∧
  (x.ProgramData.map Prod.fst).Nodup ∧
  ∀ p ∈ x.ProgramData, (p.2.map Prod.fst).Nodup

instance : DecidablePred wfCacheIndex := fun x => by
  unfold wfCacheIndex; infer_instance

/-! ## Query Service (`epgQueryHandler`)

The handler extracts `ch` and `date`, rejects a missing parameter, rejects
a date that `time.Parse("2006-01-02", ...)` cannot parse, and then walks
the three map lookups under the read lock, each miss giving a distinct
error payload. -/

/-- The digit value of an ASCII digit character. -/
def digitVal (c : Char) : Nat := c.toNat - '0'.toNat

/-- The Gregorian leap-year rule (`isLeap` of the Go time package). -/
def isLeapYear (y : Nat) : Bool :=
  y % 4 == 0 && (y % 100 != 0 || y % 400 == 0)

/-- Function `daysIn` of the Go time package: the number of days of a month. -/
def daysInMonth (y m : Nat) : Nat :=
  if m = 2 then (if isLeapYear y then 29 else 28)
  else if m = 4 ∨ m = 6 ∨ m = 9 ∨ m = 11 then 30
  else 31

/-- Success of Go `time.Parse("2006-01-02", s)`: four digits, dash, two
digits, dash, two digits, nothing more, with the month in 1..12 and the
day within the month. -/
def goValidDate (s : String) : Bool :=
  match s.data with
  | [y1, y2, y3, y4, s1, m1, m2, s2, d1, d2] =>
    y1.isDigit && y2.isDigit && y3.isDigit && y4.isDigit && s1 == '-' &&
    m1.isDigit && m2.isDigit && s2 == '-' && d1.isDigit && d2.isDigit &&
    (let yr := digitVal y1 * 1000 + digitVal y2 * 100 + digitVal y3 * 10 + digitVal y4
     let mo := digitVal m1 * 10 + digitVal m2
     let dy := digitVal d1 * 10 + digitVal d2
     decide (1 ≤ mo) && decide (mo ≤ 12) && decide (1 ≤ dy) &&
     decide (dy ≤ daysInMonth yr mo))
  | _ => false

/-- The outcomes of `epgQueryHandler`, one per response shape of the code:
the four distinct error payloads and the success payload. -/
inductive QueryResult where
  | missingParameter
  | invalidDateFormat
  | channelNotFound (ch : String)
  | noProgramData (ch : String)
  | noProgramDataForDate (ch date : String)
  | success (resp : EPGResponse)
deriving DecidableEq, Repr

/-- Function `epgQueryHandler` from `main.go` as a function of the installed index
and the two request parameters. -/
def epgQueryHandler (cache : CacheIndex) (chName dateStr : String) : QueryResult :=
  if chName = "" ∨ dateStr = "" then .missingParameter
  else if goValidDate dateStr = false then .invalidDateFormat
  else
    match alLookup cache.ChannelMap chName with
    | none => .channelNotFound chName
    | some chID =>
      match alLookup cache.ProgramData chID with
      | none => .noProgramData chName
      | some datePrograms =>
        match alLookup datePrograms dateStr with
        | none => .noProgramDataForDate chName dateStr
        | some programs => .success ⟨chName, dateStr, programs⟩



/-! ## Association list lemmas -/

theorem alLookup_cons {β : Type} (p : String × β) (m : List (String × β))
    (k : String) :
    alLookup (p :: m) k = if p.1 = k then some p.2 else alLookup m k := by
  obtain ⟨a, b⟩ := p
  by_cases h : a = k
  · simp [alLookup, List.find?_cons_of_pos, h]
  · have hb : ((a, b).1 == k) = false := by simpa using h
    simp [alLookup, List.find?_cons_of_neg, hb, h]

theorem alLookup_alInsert {β : Type} (m : List (String × β)) (k : String) (v : β)
    (k' : String) :
    alLookup (alInsert m k v) k' = if k' = k then some v else alLookup m k' := by
  induction m with
  | nil =>
    by_cases h : k' = k
    · simp [alInsert, alLookup_cons, h]
    · have h2 : k ≠ k' := Ne.symm h
      simp [alInsert, alLookup_cons, h, h2, alLookup]
  | cons p rest ih =>
    obtain ⟨a, b⟩ := p
    by_cases hak : a = k
    · have hb : (a == k) = true := by simpa using hak
      simp only [alInsert, hb, if_true]
      rw [alLookup_cons, alLookup_cons]
      by_cases h : k' = k
      · simp [h]
      · have h2 : k ≠ k' := Ne.symm h
        have h3 : a ≠ k' := by rw [hak]; exact h2
        simp [h, h2, h3]
    · have hb : (a == k) = false := by simpa using hak
      simp only [alInsert, hb, Bool.false_eq_true, if_false]
      rw [alLookup_cons, alLookup_cons, ih]
      by_cases h1 : a = k'
      · have hk : k' ≠ k := by rw [← h1]; exact hak
        simp [h1, hk]
      · simp [h1]

theorem alLookup_append {β : Type} (m1 m2 : List (String × β)) (k : String) :
    alLookup (m1 ++ m2) k = (alLookup m1 k).or (alLookup m2 k) := by
  simp only [alLookup, List.find?_append]
  cases List.find? (fun p => p.1 == k) m1 <;> simp

theorem alInsert_of_lookup_none {β : Type} (m : List (String × β)) (k : String)
    (v : β) (h : alLookup m k = none) : alInsert m k v = m ++ [(k, v)] := by
  induction m with
  | nil => rfl
  | cons p rest ih =>
    rw [alLookup_cons] at h
    by_cases hak : p.1 = k
    · simp [hak] at h
    · have hb : (p.1 == k) = false := by simpa using hak
      simp only [alInsert, hb, Bool.false_eq_true, if_false, List.cons_append,
        List.cons.injEq, true_and]
      exact ih (by simpa [hak] using h)

theorem foldl_alInsert_of_nodup {β : Type} :
    ∀ (l acc : List (String × β)), (l.map Prod.fst).Nodup →
      (∀ p ∈ l, alLookup acc p.1 = none) →
      l.foldl (fun m p => alInsert m p.1 p.2) acc = acc ++ l := by
  intro l
  induction l with
  | nil => intro acc _ _; simp
  | cons p rest ih =>
    intro acc hnd habs
    rw [List.map_cons, List.nodup_cons] at hnd
    obtain ⟨hp1, hrest⟩ := hnd
    have h1 : alLookup acc p.1 = none := habs p (by simp)
    have hstep : alInsert acc p.1 p.2 = acc ++ [p] :=
      alInsert_of_lookup_none acc p.1 p.2 h1
    have habs2 : ∀ q ∈ rest, alLookup (acc ++ [p]) q.1 = none := by
      intro q hq
      have hq1 : alLookup acc q.1 = none := habs q (List.mem_cons_of_mem p hq)
      have hq2 : p.1 ≠ q.1 :=
        fun he => hp1 (he ▸ List.mem_map_of_mem Prod.fst hq)
      have hq3 : alLookup [p] q.1 = none := by
        rw [alLookup_cons]
        simp [hq2, alLookup]
      rw [alLookup_append, hq1, hq3]
      rfl
    simp only [List.foldl_cons, hstep, ih (acc ++ [p]) hrest habs2]
    simp

/-! ## Split and parse lemmas -/

theorem splitSpace_ne_nil : ∀ l : List Char, splitSpace l ≠ []
  | [] => by simp [splitSpace]
  | c :: rest => by
    unfold splitSpace
    by_cases h : c = ' '
    · simp [h]
    · simp only [h, if_false]
      cases hs : splitSpace rest <;> simp

theorem splitSpace_head :
    ∀ l : List Char, ∃ t, splitSpace l = (l.takeWhile (fun c => c != ' ')) :: t := by
  intro l
  induction l with
  | nil => exact ⟨[], rfl⟩
  | cons c rest ih =>
    by_cases h : c = ' '
    · subst h
      refine ⟨splitSpace rest, ?_⟩
      simp [splitSpace, List.takeWhile_cons]
    · obtain ⟨t, ht⟩ := ih
      refine ⟨t, ?_⟩
      have hb : (c != ' ') = true := by simpa using h
      simp only [splitSpace, h, if_false, ht, List.takeWhile_cons, hb, if_true]

theorem splitSpace_no_space : ∀ l : List Char, ' ' ∉ l → splitSpace l = [l] := by
  intro l
  induction l with
  | nil => intro _; rfl
  | cons c rest ih =>
    intro h
    have hc : c ≠ ' ' := fun he => h (he ▸ List.mem_cons_self c rest)
    have hr : ' ' ∉ rest := fun hm => h (List.mem_cons_of_mem c hm)
    simp only [splitSpace, hc, if_false, ih hr]

theorem splitSpace_append_space (base rest : List Char) (h : ' ' ∉ base) :
    splitSpace (base ++ ' ' :: rest) = base :: splitSpace rest := by
  induction base with
  | nil => simp [splitSpace]
  | cons c b ih =>
    have hc : c ≠ ' ' := fun he => h (he ▸ List.mem_cons_self c b)
    have hb : ' ' ∉ b := fun hm => h (List.mem_cons_of_mem c hm)
    simp only [List.cons_append, splitSpace, hc, if_false, List.append_eq]
    rw [ih hb]

theorem parseEPGTimeCore_isErr (l : List Char) :
    isErr (parseEPGTimeCore l) =
      ((l.takeWhile (fun c => c != ' ')).length != 14) := by
  obtain ⟨t, ht⟩ := splitSpace_head l
  simp only [parseEPGTimeCore, ht]
  by_cases h : (l.takeWhile (fun c => c != ' ')).length = 14
  · simp [h, isErr]
  · simp [h, isErr]

/-! ## Hour/minute bounds and padding -/

theorem goTimeDate_bounds (y mo d hh mi ss : Int) :
    (goTimeDate y mo d hh mi ss).hour < 24 ∧
      (goTimeDate y mo d hh mi ss).minute < 60 := by
  constructor
  · show ((hh + (mi + ss / 60) / 60) % 24).toNat < 24
    omega
  · show ((mi + ss / 60) % 60).toNat < 60
    omega

theorem hhmmFmt_zeroPadded :
    ∀ h, h < 24 → ∀ m, m < 60 → zeroPaddedHHMM (hhmmFmt h m) = true := by decide

/-! ## Claim theorems for the Timestamp Parser -/

/-- C10: `parseEPGTime` never reaches the `len(parts) < 1` error branch
(`strings.Split` always yields at least one part), it fails exactly when
the substring before the first space is not 14 characters long, and each
fixed-width field keeps the value 0 that `strconv.Atoi` returns alongside
a discarded conversion error — so a 14-character portion with non-digit
characters still parses successfully. -/
theorem parseEPGTime_error_iff_not14 (s : List Char) :
    (splitSpace s).isEmpty = false ∧
    isErr (parseEPGTimeCore s) = ((s.takeWhile (fun c => c != ' ')).length != 14) ∧
    ∀ ds : List Char, goAtoi ds = (goAtoiE ds).getD 0 := by
  refine ⟨?_, parseEPGTimeCore_isErr s, fun _ => rfl⟩
  cases hs : splitSpace s with
  | nil => exact absurd hs (splitSpace_ne_nil s)
  | cons a t => rfl

/-- C1 counterexample: an input whose numeric portion is exactly 14
characters but in which every fixed-width substring fails integer
parsing; the claim requires a `MalformedTimestamp` failure, yet
`parseEPGTime` succeeds (the `strconv.Atoi` errors are discarded). -/
theorem parseEPGTime_nondigit_accepted :
    ((goAtoiE ("ABCDABCDABCDAB".data.take 4) = none ∧
      goAtoiE (("ABCDABCDABCDAB".data.drop 4).take 2) = none ∧
      goAtoiE (("ABCDABCDABCDAB".data.drop 6).take 2) = none ∧
      goAtoiE (("ABCDABCDABCDAB".data.drop 8).take 2) = none ∧
      goAtoiE (("ABCDABCDABCDAB".data.drop 10).take 2) = none ∧
      goAtoiE (("ABCDABCDABCDAB".data.drop 12).take 2) = none) ∧
     "ABCDABCDABCDAB".data.length = 14) ∧
    isErr (parseEPGTime "ABCDABCDABCDAB") = false := by decide

/-- C1 amended: `parseEPGTime` fails with the malformed-timestamp error
exactly when the numeric portion (the substring before the first space)
is not exactly 14 characters; whenever that portion is 14 characters an
instant is still returned, so a fixed-width substring that fails integer
parsing never makes the parse fail (its component value defaults to 0). -/
theorem parseEPGTime_fails_iff_bad_length (s : String) :
    (isErr (parseEPGTime s) = true ↔
      (s.data.takeWhile (fun c => c != ' ')).length ≠ 14) ∧
    ((s.data.takeWhile (fun c => c != ' ')).length = 14 →
      ∃ t, parseEPGTime s = .ok t) := by
  have h := parseEPGTimeCore_isErr s.data
  constructor
  · rw [parseEPGTime, h]
    simp
  · intro hlen
    rw [parseEPGTime]
    cases he : parseEPGTimeCore s.data with
    | ok t => exact ⟨t, rfl⟩
    | error e =>
      rw [he] at h
      simp [isErr, hlen] at h

theorem parseEPGTime_fails_iff_bad_length_witness :
    isErr (parseEPGTime "123") = true ∧
    (("20240101120000".data.takeWhile (fun c => c != ' ')).length = 14 ∧
      ∃ t, parseEPGTime "20240101120000" = .ok t) :=
  ⟨(parseEPGTime_fails_iff_bad_length "123").1.mpr (by decide),
   ⟨by decide, (parseEPGTime_fails_iff_bad_length "20240101120000").2 (by decide)⟩⟩

/-- C8: for a 14-character numeric portion, the parsed instant is the same
whether or not a timezone offset token follows a space — the parser never
reads past the first space, the offset never affects the result, and the
components are interpreted in the process local timezone (the model of
`time.Date(..., time.Local)`). -/
theorem parseEPGTime_ignores_offset (base rest : List Char)
    (hsp : ' ' ∉ base) (hlen : base.length = 14) :
    parseEPGTimeCore (base ++ ' ' :: rest) = parseEPGTimeCore base ∧
    ∃ t, parseEPGTimeCore base = .ok t := by
  have h1 := splitSpace_append_space base rest hsp
  have h2 := splitSpace_no_space base hsp
  constructor
  · simp only [parseEPGTimeCore, h1, h2]
  · simp only [parseEPGTimeCore, h2, hlen]
    exact ⟨_, rfl⟩

theorem parseEPGTime_ignores_offset_witness :
    (' ' ∉ "20240101120000".data ∧ "20240101120000".data.length = 14) ∧
    parseEPGTimeCore ("20240101120000".data ++ ' ' :: "+0800".data) =
      parseEPGTimeCore "20240101120000".data :=
  ⟨⟨by decide, by decide⟩,
    (parseEPGTime_ignores_offset "20240101120000".data "+0800".data
      (by decide) (by decide)).1⟩

/-! ## Claim theorems for the Index Builder -/

/-- Reference description of one date bucket, written from the claim: the
programmes whose two timestamps parse, whose channel attribute is `c`, and
whose start instant has calendar date `d` (in local time, formatted
`YYYY-MM-DD`), each contributing a `ProgramItem` with `HH:MM`-formatted
start and stop, in original feed order. -/
def bucketItems : List Programme → String → String → List ProgramItem
  | [], _, _ => []
  | p :: rest, c, d =>
    match parseEPGTime p.Start, parseEPGTime p.Stop with
    | .ok st, .ok sp =>
      if p.Channel = c ∧ goDateFmt st = d
      then ⟨goTimeHHMM st, goTimeHHMM sp, p.Title⟩ :: bucketItems rest c d
      else bucketItems rest c d
    | _, _ => bucketItems rest c d

theorem lookup2_alInsert (pd : List (String × List (String × List ProgramItem)))
    (c0 : String) (inner' : List (String × List ProgramItem)) (c d : String) :
    lookup2 (alInsert pd c0 inner') c d =
      if c = c0 then alLookup inner' d else lookup2 pd c d := by
  unfold lookup2
  rw [alLookup_alInsert]
  by_cases h : c = c0 <;> simp [h]

theorem lookup2_progStep (pd : List (String × List (String × List ProgramItem)))
    (prog : Programme) (c d : String) :
    lookup2 (progStep pd prog) c d =
      match parseEPGTime prog.Start, parseEPGTime prog.Stop with
      | .ok st, .ok sp =>
        if prog.Channel = c ∧ goDateFmt st = d
        then some ((lookup2 pd c d).getD [] ++
          [⟨goTimeHHMM st, goTimeHHMM sp, prog.Title⟩])
        else lookup2 pd c d
      | _, _ => lookup2 pd c d := by
  cases hst : parseEPGTime prog.Start with
  | error e => simp [progStep, hst]
  | ok st =>
    cases hsp : parseEPGTime prog.Stop with
    | error e => simp [progStep, hst, hsp]
    | ok sp =>
      simp only [progStep, hst, hsp]
      rw [lookup2_alInsert]
      by_cases hc : c = prog.Channel
      · subst hc
        rw [if_pos rfl, alLookup_alInsert]
        by_cases hd : d = goDateFmt st
        · subst hd
          rw [if_pos rfl, if_pos ⟨rfl, rfl⟩]
          cases hpc : alLookup pd prog.Channel with
          | none =>
            simp only [lookup2, hpc, Option.none_bind, Option.getD_none]
            rfl
          | some inner =>
            simp only [lookup2, hpc, Option.some_bind, Option.getD_some]
        · rw [if_neg hd, if_neg (fun h => hd h.2.symm)]
          cases hpc : alLookup pd prog.Channel with
          | none =>
            simp only [lookup2, hpc, Option.none_bind, Option.getD_none]
            rfl
          | some inner =>
            simp only [lookup2, hpc, Option.some_bind, Option.getD_some]
      · rw [if_neg hc, if_neg (fun h => hc h.1.symm)]

theorem lookup2_foldl_progStep :
    ∀ (progs : List Programme) (pd : List (String × List (String × List ProgramItem)))
      (c d : String),
      lookup2 (progs.foldl progStep pd) c d =
        match lookup2 pd c d with
        | some cur => some (cur ++ bucketItems progs c d)
        | none =>
          if bucketItems progs c d = [] then none
          else some (bucketItems progs c d) := by
  intro progs
  induction progs with
  | nil =>
    intro pd c d
    cases h : lookup2 pd c d <;> simp [bucketItems, h]
  | cons p rest ih =>
    intro pd c d
    rw [List.foldl_cons, ih (progStep pd p) c d, lookup2_progStep pd p c d]
    cases hst : parseEPGTime p.Start with
    | error e => simp [bucketItems, hst]
    | ok st =>
      cases hsp : parseEPGTime p.Stop with
      | error e => simp [bucketItems, hst, hsp]
      | ok sp =>
        by_cases hcond : p.Channel = c ∧ goDateFmt st = d
        · simp only [bucketItems, hst, hsp, if_pos hcond]
          cases hcur : lookup2 pd c d with
          | none => simp
          | some cur => simp
        · simp only [bucketItems, hst, hsp, if_neg hcond]

/-- C5: for every channel/date pair, the bucket `ProgramData[c][d]` of the
built index exists exactly when some programme contributes to it and then
holds, in original feed order, the items of the programmes whose two
timestamps parse, keyed by channel attribute and by the local calendar
date of the start instant formatted `YYYY-MM-DD`, with start and stop
formatted `HH:MM`; and every instant the parser can produce formats as a
zero-padded `HH:MM` string. -/
theorem buildEPGCache_buckets_and_format :
    (∀ (progs : List Programme) (c d : String),
      lookup2 (buildProgramData progs) c d =
        if bucketItems progs c d = [] then none
        else some (bucketItems progs c d)) ∧
    (∀ y mo dd hh mi ss : Int,
      zeroPaddedHHMM (goTimeHHMM (goTimeDate y mo dd hh mi ss)) = true) := by
  constructor
  · intro progs c d
    have h := lookup2_foldl_progStep progs [] c d
    have h0 : lookup2 [] c d = none := rfl
    rw [buildProgramData, h, h0]
  · intro y mo dd hh mi ss
    have hb := goTimeDate_bounds y mo dd hh mi ss
    exact hhmmFmt_zeroPadded _ hb.1 _ hb.2

/-! ## Claim theorems for the name index (C6) and build totality (C7) -/

theorem buildChannelMap_aux :
    ∀ (chs : List Channel) (acc : List (String × String)) (name : String),
      alLookup (chs.foldl (fun m ch =>
          match firstZhName ch with
          | some n => alInsert m n ch.ID
          | none => m) acc) name =
        match chs.reverse.find? (fun ch => firstZhName ch == some name) with
        | some ch => some ch.ID
        | none => alLookup acc name := by
  intro chs
  induction chs with
  | nil => intro acc name; rfl
  | cons ch rest ih =>
    intro acc name
    rw [List.foldl_cons, ih, List.reverse_cons, List.find?_append]
    cases hr : rest.reverse.find? (fun ch => firstZhName ch == some name) with
    | some ch' => rfl
    | none =>
      simp only [Option.none_or]
      by_cases hp : firstZhName ch = some name
      · have hfind : List.find? (fun c' => firstZhName c' == some name) [ch] =
            some ch := by
          simp [List.find?, hp]
        rw [hfind, hp]
        show alLookup (alInsert acc name ch.ID) name = some ch.ID
        rw [alLookup_alInsert, if_pos rfl]
      · have hb : (firstZhName ch == some name) = false :=
          beq_eq_false_iff_ne.mpr hp
        have hfind : List.find? (fun c' => firstZhName c' == some name) [ch] =
            none := by
          simp [List.find?, hb]
        rw [hfind]
        cases hz : firstZhName ch with
        | none => rfl
        | some n =>
          have hn : name ≠ n := fun he => hp (he ▸ hz)
          show alLookup (alInsert acc n ch.ID) name = alLookup acc name
          rw [alLookup_alInsert, if_neg hn]

/-- C6: the name index of the built cache maps `name` to an id exactly when
some channel derives `name` (the first display name in document order with
language `"zh"` and a nonempty value), the id being that of the last such
channel in document order; channels that derive no name are absent from the
name index, while the programme index is built from the programme list
alone and therefore still indexes their programmes by channel id. -/
theorem buildEPGCache_nameIndex (tv : TV) (name : String) :
    alLookup (buildCacheIndex tv).ChannelMap name =
      (tv.Channels.reverse.find?
        (fun ch => firstZhName ch == some name)).map (fun ch => ch.ID) ∧
    (buildCacheIndex tv).ProgramData = buildProgramData tv.Programmes := by
  refine ⟨?_, rfl⟩
  have h := buildChannelMap_aux tv.Channels [] name
  show alLookup (buildChannelMap tv.Channels) name = _
  rw [buildChannelMap, h]
  cases tv.Channels.reverse.find? (fun ch => firstZhName ch == some name) <;> rfl

theorem foldl_progStep_filter :
    ∀ (progs : List Programme) (pd : List (String × List (String × List ProgramItem))),
      progs.foldl progStep pd =
        (progs.filter (fun p =>
          !(isErr (parseEPGTime p.Start)) && !(isErr (parseEPGTime p.Stop)))).foldl
          progStep pd := by
  intro progs
  induction progs with
  | nil => intro pd; rfl
  | cons p rest ih =>
    intro pd
    cases hst : parseEPGTime p.Start with
    | error e =>
      have hskip : progStep pd p = pd := by simp [progStep, hst]
      simp [List.filter_cons, hst, isErr, hskip, ih]
    | ok st =>
      cases hsp : parseEPGTime p.Stop with
      | error e =>
        have hskip : progStep pd p = pd := by simp [progStep, hst, hsp]
        simp [List.filter_cons, hst, hsp, isErr, hskip, ih]
      | ok sp =>
        simp only [List.filter_cons, hst, hsp, isErr, Bool.not_false,
          Bool.and_self, if_true, List.foldl_cons]
        exact ih (progStep pd p)

/-- C7: the Build stage never fails — `buildEPGCache` returns `ok` on
every document — and a programme either of whose timestamps fails to
parse is skipped entirely (building from the programme list is the same
as building from the sublist of programmes whose two timestamps parse),
while every other programme is still processed. -/
theorem buildEPGCache_total_and_skips (tv : TV) :
    buildEPGCache tv = .ok (buildCacheIndex tv) ∧
    buildProgramData tv.Programmes =
      buildProgramData (tv.Programmes.filter (fun p =>
        !(isErr (parseEPGTime p.Start)) && !(isErr (parseEPGTime p.Stop)))) :=
  ⟨rfl, foldl_progStep_filter tv.Programmes []⟩

/-! ## Sample data used by the witnesses -/

/-- A small concrete guide document: one channel with a Chinese display
name and one programme (the end-to-end example of the specification). -/
def sampleTV : TV :=
  ⟨[⟨"c1", [⟨"zh", "CCTV1"⟩]⟩],
   [⟨"20240101120000 +0800", "20240101130000 +0800", "c1", "News"⟩],
   "", "", "", ""⟩

/-! ## Claim theorems for the Ingestion Pipeline (C2) -/

/-- C2 counterexample: a run in which Fetch, Decompress and Parse succeed
and Persist fails. The run aborts with an error, yet the installed index is
no longer the pre-run index — `buildEPGCache` had already replaced the
cache before `saveCache` ran, so a Persist failure leaves the *new* index
installed, contradicting the claim that any failing stage leaves the Cache
Store exactly as it was before the run. -/
theorem downloadAndParseEPG_persist_cex :
    isErr (downloadAndParseEPG (.ok ()) (.ok ()) (.ok sampleTV)
      (.error "write failed") emptyCacheIndex).1 = true ∧
    (downloadAndParseEPG (.ok ()) (.ok ()) (.ok sampleTV)
      (.error "write failed") emptyCacheIndex).2 ≠ emptyCacheIndex := by
  constructor
  · rfl
  · decide

/-- C2 amended: if Fetch, Decompress or Parse fails, the run aborts and
the installed index is exactly what it was before the run began; Build
never fails and installs the newly built index, and if Persist then fails
the run still reports an error but the newly built index has already been
installed and remains installed. -/
theorem downloadAndParseEPG_stage_failures (fr dr : Except String Unit)
    (pr : Except String TV) (sr : Except String Unit) (c : CacheIndex) :
    ((isErr fr = true ∨ isErr dr = true ∨ isErr pr = true) →
      (downloadAndParseEPG fr dr pr sr c).2 = c) ∧
    (∀ tvData, fr = .ok () → dr = .ok () → pr = .ok tvData →
      (downloadAndParseEPG fr dr pr sr c).2 = buildCacheIndex tvData ∧
      (isErr sr = true →
        isErr (downloadAndParseEPG fr dr pr sr c).1 = true)) := by
  constructor
  · intro h
    cases fr with
    | error e => rfl
    | ok u =>
      cases dr with
      | error e => rfl
      | ok u' =>
        cases pr with
        | error e => rfl
        | ok tvData =>
          rcases h with h | h | h <;> simp [isErr] at h
  · intro tvData hf hd hp
    subst hf; subst hd; subst hp
    cases sr with
    | error e => exact ⟨rfl, fun _ => rfl⟩
    | ok u => exact ⟨rfl, fun h => by simp [isErr] at h⟩

theorem downloadAndParseEPG_stage_failures_witness :
    (downloadAndParseEPG (.error "connection refused") (.ok ()) (.ok sampleTV)
      (.ok ()) emptyCacheIndex).2 = emptyCacheIndex ∧
    (downloadAndParseEPG (.ok ()) (.ok ()) (.ok sampleTV) (.error "disk full")
      emptyCacheIndex).2 = buildCacheIndex sampleTV :=
  ⟨(downloadAndParseEPG_stage_failures (.error "connection refused") (.ok ())
      (.ok sampleTV) (.ok ()) emptyCacheIndex).1 (Or.inl rfl),
   ((downloadAndParseEPG_stage_failures (.ok ()) (.ok ()) (.ok sampleTV)
      (.error "disk full") emptyCacheIndex).2 sampleTV rfl rfl rfl).1⟩

/-! ## Claim theorems for the Persistence Adapter (C3) -/

theorem decodeItem_encodeItem (it : ProgramItem) :
    decodeItem (encodeItem it) = some it := rfl

theorem decodeItems_encodeItems (l : List ProgramItem) :
    decodeItems (encodeItems l) = some l := by
  show decodeItemList (l.map encodeItem) = some l
  induction l with
  | nil => rfl
  | cons it rest ih =>
    simp [decodeItemList, decodeItem_encodeItem, ih]

theorem foldlM_decode_of_forall {β : Type} (dec : Json → Option β)
    (enc : β → Json) :
    ∀ (l acc : List (String × β)), (∀ p ∈ l, dec (enc p.2) = some p.2) →
      ((l.map (fun p => (p.1, enc p.2))).foldlM
        (fun m p => (dec p.2).map (fun b => alInsert m p.1 b)) acc) =
        some (l.foldl (fun m p => alInsert m p.1 p.2) acc) := by
  intro l
  induction l with
  | nil => intro acc _; rfl
  | cons p rest ih =>
    intro acc hall
    have hp := hall p (by simp)
    rw [List.map_cons, List.foldlM_cons]
    simp only [hp, Option.map_some']
    exact ih _ (fun q hq => hall q (List.mem_cons_of_mem p hq))

theorem decodeStrMap_encode (cm : List (String × String))
    (h : (cm.map Prod.fst).Nodup) :
    decodeStrMap (.obj (cm.map (fun p => (p.1, Json.str p.2)))) = some cm := by
  show (cm.map (fun p => (p.1, Json.str p.2))).foldlM
      (fun m p => (decodeStr p.2).map (fun s => alInsert m p.1 s)) [] = some cm
  rw [foldlM_decode_of_forall decodeStr Json.str cm [] (fun p _ => rfl),
    foldl_alInsert_of_nodup cm [] h (fun p _ => rfl)]
  simp

theorem decodeDateMap_encodeDateMap (dm : List (String × List ProgramItem))
    (h : (dm.map Prod.fst).Nodup) :
    decodeDateMap (encodeDateMap dm) = some dm := by
  show (dm.map (fun p => (p.1, encodeItems p.2))).foldlM
      (fun m p => (decodeItems p.2).map (fun l => alInsert m p.1 l)) [] = some dm
  rw [foldlM_decode_of_forall decodeItems encodeItems dm []
      (fun p _ => decodeItems_encodeItems p.2),
    foldl_alInsert_of_nodup dm [] h (fun p _ => rfl)]
  simp

theorem decodePD_encodePD (pd : List (String × List (String × List ProgramItem)))
    (h : (pd.map Prod.fst).Nodup) (hin : ∀ p ∈ pd, (p.2.map Prod.fst).Nodup) :
    decodePD (encodePD pd) = some pd := by
  show (pd.map (fun p => (p.1, encodeDateMap p.2))).foldlM
      (fun m p => (decodeDateMap p.2).map (fun l => alInsert m p.1 l)) [] = some pd
  rw [foldlM_decode_of_forall decodeDateMap encodeDateMap pd []
      (fun p hp => decodeDateMap_encodeDateMap p.2 (hin p hp)),
    foldl_alInsert_of_nodup pd [] h (fun p _ => rfl)]
  simp

/-- C3: for every reachable index value (unique keys at every map level,
as Go maps guarantee), serializing with `saveCache` and deserializing with
`loadCache` restores the index exactly: `load(save(x)) = x`. -/
theorem loadCache_saveCache (x : CacheIndex) (h : wfCacheIndex x) :
    loadCache (saveCache x) = some x := by
  obtain ⟨h1, h2, h3⟩ := h
  have e1 : loadCache (saveCache x) =
      (decodeStrMap (.obj (x.ChannelMap.map (fun p => (p.1, Json.str p.2))))).bind
        (fun cm => (decodePD (encodePD x.ProgramData)).map
          (fun pd => ⟨cm, pd⟩)) := rfl
  rw [e1, decodeStrMap_encode x.ChannelMap h1, decodePD_encodePD x.ProgramData h2 h3]
  rfl

theorem loadCache_saveCache_witness :
    wfCacheIndex (buildCacheIndex sampleTV) ∧
    loadCache (saveCache (buildCacheIndex sampleTV)) =
      some (buildCacheIndex sampleTV) :=
  ⟨by decide, loadCache_saveCache (buildCacheIndex sampleTV) (by decide)⟩

/-! ## Claim theorems for the Query Service (C4) -/

/-- C4: the handler checks its conditions in order — missing parameter
first, then the date format (for every cache value, so the check precedes
any cache lookup), then the three key resolutions name → id,
id → date-bucket, date → items, each miss mapped to its own distinct
error; on success it returns the channel name, the date and the stored
item list unchanged (hence in stored order). -/
theorem epgQueryHandler_order (cache : CacheIndex) (ch d : String) :
    ((ch = "" ∨ d = "") → epgQueryHandler cache ch d = .missingParameter) ∧
    (¬(ch = "" ∨ d = "") → goValidDate d = false →
      epgQueryHandler cache ch d = .invalidDateFormat) ∧
    (¬(ch = "" ∨ d = "") → goValidDate d = true →
      ((alLookup cache.ChannelMap ch = none →
          epgQueryHandler cache ch d = .channelNotFound ch) ∧
       (∀ chID, alLookup cache.ChannelMap ch = some chID →
         ((alLookup cache.ProgramData chID = none →
             epgQueryHandler cache ch d = .noProgramData ch) ∧
          (∀ datePrograms, alLookup cache.ProgramData chID = some datePrograms →
            ((alLookup datePrograms d = none →
                epgQueryHandler cache ch d = .noProgramDataForDate ch d) ∧
             (∀ programs, alLookup datePrograms d = some programs →
                epgQueryHandler cache ch d =
                  .success ⟨ch, d, programs⟩))))))) := by
  refine ⟨fun h => ?_, fun h hv => ?_, fun h hv => ?_⟩
  · simp only [epgQueryHandler, if_pos h]
  · simp [epgQueryHandler, h, hv]
  · refine ⟨fun hn => ?_,
      fun chID hid => ⟨fun hn => ?_,
        fun datePrograms hdp => ⟨fun hn => ?_, fun programs hpr => ?_⟩⟩⟩ <;>
      simp [epgQueryHandler, h, hv, *]

theorem epgQueryHandler_order_witness :
    epgQueryHandler (buildCacheIndex sampleTV) "CCTV1" "2024-01-01" =
      .success ⟨"CCTV1", "2024-01-01", [⟨"12:00", "13:00", "News"⟩]⟩ :=
  ((((epgQueryHandler_order (buildCacheIndex sampleTV) "CCTV1"
      "2024-01-01").2.2 (by decide) (by decide)).2 "c1" (by decide)).2
      [("2024-01-01", [⟨"12:00", "13:00", "News"⟩])] (by decide)).2
      [⟨"12:00", "13:00", "News"⟩] (by decide)
